import Mathlib

/-
Verification of the coordinate-indexed optimization-model layer exercised by
`examples/manipulating-models.ipynb`.  The library implementation itself is not
part of the repository snapshot, so the data model and operations below are
modelled from the specification (spec.md sections 3 and 4) and the notebook's
observable usage: labeled arrays aligned by coordinate label, an arena-style
variable store with permanent integer ids, a constraint store, linear
expressions, and the translate/solve contract.
-/

namespace Linopy


/-- A coordinate-label tuple: one label per named axis. -/
abbrev Lab := List String

abbrev VarId := Nat

abbrev ConId := Nat

/-- Modelled from the spec: bound values may be finite rationals or the fill
values minus/plus infinity used for absent bounds. -/
inductive XVal where
  | ninf : XVal
  | fin (q : ℚ) : XVal
  | pinf : XVal
deriving DecidableEq

/-- Comparison sign of a constraint. -/
inductive CmpSign where
  | le : CmpSign
  | eqs : CmpSign
  | ge : CmpSign
deriving DecidableEq

/-- Objective sense. -/
inductive Sense where
  | minimize : Sense
  | maximize : Sense
deriving DecidableEq

/-- Modelled from the spec: the error taxonomy of section 7. -/
inductive Err where
  | DuplicateName : Err
  | ShapeMismatch : Err
  | UnknownOrInactiveVariable : Err
  | NonConstantRHS : Err
  | AmbiguousObjectiveShape : Err
  | InfeasibleOrUnbounded : Err
  | SolverError : Err
deriving DecidableEq

instance decEqExcept {ε α : Type} [DecidableEq ε] [DecidableEq α] :
    DecidableEq (Except ε α) := fun a b =>
  match a, b with
  | .error e, .error f =>
    if h : e = f then isTrue (by rw [h]) else isFalse (fun hc => h (by cases hc; rfl))
  | .error _, .ok _ => isFalse (fun hc => Except.noConfusion hc)
  | .ok _, .error _ => isFalse (fun hc => Except.noConfusion hc)
  | .ok x, .ok y =>
    if h : x = y then isTrue (by rw [h]) else isFalse (fun hc => h (by cases hc; rfl))

/-- Modelled from the spec: a labeled array maps coordinate-label tuples to
values; missing entries take a fill value during broadcasting. -/
abbrev LArr (α : Type) := List (Lab × α)

/-- The coordinate set (list of labels) of a labeled array. -/
def labelsOf {α : Type} (a : LArr α) : List Lab := a.map Prod.fst

/-- Value at a label, with a fill value for missing entries. -/
def getD {α : Type} (a : LArr α) (l : Lab) (fill : α) : α :=
  match a.find? (fun p => decide (p.1 = l)) with
  | some p => p.2
  | none => fill

/-- Outer-join union of two coordinate sets: the left labels followed by the
right labels not already present. -/
def unionLabs (xs ys : List Lab) : List Lab :=
  xs ++ ys.filter (fun y => decide (y ∉ xs))

/-- Modelled from the spec: `align(a, b)` combines two labeled arrays over the
outer-join coordinate set of their axes; labels present in only one side get
the fill value on the other. -/
def align {α β γ : Type} (a : LArr α) (b : LArr β) (fa : α) (fb : β)
    (op : α → β → γ) : LArr γ :=
  (unionLabs (labelsOf a) (labelsOf b)).map (fun l => (l, op (getD a l fa) (getD b l fb)))


/-- Modelled from the spec: a linear expression is a labeled array of
(coefficient, variable-id) term groups per entry, summed over an internal term
axis, plus a constant labeled array; `dims` records the non-term axes. -/
structure LinExpr where
  dims : List String
  terms : LArr (List (ℚ × VarId))
  const : LArr ℚ
deriving DecidableEq

/-- The term group of an expression at one label (empty when absent). -/
def termsAt (e : LinExpr) (l : Lab) : List (ℚ × VarId) := getD e.terms l []

/-- The constant of an expression at one label (zero when absent). -/
def constAt (e : LinExpr) (l : Lab) : ℚ := getD e.const l 0

/-- All labels carried by an expression. -/
def exprLabels (e : LinExpr) : List Lab :=
  unionLabs (labelsOf e.terms) (labelsOf e.const)

/-- Union of two axis-name lists. -/
def unionDims (xs ys : List String) : List String :=
  xs ++ ys.filter (fun y => decide (y ∉ xs))

/-- Modelled from the spec: addition of linear expressions merges term groups
over the outer-join of the two coordinate sets; terms absent on one side
contribute a zero coefficient there. -/
def LinExpr.add (a b : LinExpr) : LinExpr :=
  { dims := unionDims a.dims b.dims
    terms := (unionLabs (exprLabels a) (exprLabels b)).map
      (fun l => (l, termsAt a l ++ termsAt b l))
    const := (unionLabs (exprLabels a) (exprLabels b)).map
      (fun l => (l, constAt a l + constAt b l)) }

/-- Modelled from the spec: scaling multiplies every coefficient and the
constant by `k`. -/
def LinExpr.scale (k : ℚ) (e : LinExpr) : LinExpr :=
  { dims := e.dims
    terms := e.terms.map (fun p => (p.1, p.2.map (fun t => (k * t.1, t.2))))
    const := e.const.map (fun p => (p.1, k * p.2)) }

/-- Subtraction, derived as addition of the (-1)-scaled expression. -/
def LinExpr.sub (a b : LinExpr) : LinExpr := a.add (LinExpr.scale (-1) b)

/-- The expression of a declared variable array: coefficient 1 on the
variable's id at each of its labels. -/
def varExpr (dims : List String) (ids : LArr VarId) : LinExpr :=
  { dims := dims
    terms := ids.map (fun p => (p.1, [((1 : ℚ), p.2)]))
    const := [] }

/-- The zero expression. -/
def zeroExpr : LinExpr := { dims := [], terms := [], const := [] }

/-- Net coefficient of a variable id in a term group. -/
def coeffOf (ts : List (ℚ × VarId)) (v : VarId) : ℚ :=
  (ts.map (fun t => if t.2 = v then t.1 else 0)).sum

/-- Net coefficient of a variable id in an expression at a label. -/
def exprCoeff (e : LinExpr) (l : Lab) (v : VarId) : ℚ := coeffOf (termsAt e l) v

/-- The variable-bearing part of an expression: its term groups with the
constants dropped. -/
def varPart (e : LinExpr) : LinExpr :=
  { dims := e.dims, terms := e.terms, const := [] }

/-- What is left of a right-hand side after every variable-bearing term has
been moved to the left: the term groups are emptied, constants remain. -/
def stripVarTerms (rhs : LinExpr) : LinExpr :=
  { dims := rhs.dims, terms := rhs.terms.map (fun p => (p.1, [])), const := rhs.const }

/-- Constant-only check: no (coefficient, variable-id) terms remain. -/
def isConstantOnly (e : LinExpr) : Bool :=
  e.terms.all (fun p => p.2.isEmpty)

/-- A raw constraint as built by `compare`, before ids are allocated. -/
structure RawCon where
  lhs : LinExpr
  sign : CmpSign
  rhs : LArr ℚ
deriving DecidableEq

/-- Modelled from the spec: `compare(expr, sign, rhs)` builds a constraint by
moving every variable-bearing term of `rhs` onto the left with negated
coefficients, then validating that the remaining rhs is constant-only;
it fails with `NonConstantRHS` otherwise. -/
def compare (e : LinExpr) (sign : CmpSign) (rhs : LinExpr) : Except Err RawCon :=
  if isConstantOnly (stripVarTerms rhs) then
    .ok { lhs := e.sub (varPart rhs), sign := sign, rhs := rhs.const }
  else .error .NonConstantRHS

/-- Net coefficient of variable `v` in the solver row of a raw constraint at
label `l`. -/
def rowCoeff (c : RawCon) (l : Lab) (v : VarId) : ℚ := exprCoeff c.lhs l v

/-- Effective right-hand-side constant of the solver row at label `l` (the
declared rhs minus the constant remaining on the left). -/
def rowRhs (c : RawCon) (l : Lab) : ℚ := getD c.rhs l 0 - constAt c.lhs l

/-- Two raw constraints denote the same solver row. -/
def sameRow (c d : RawCon) : Prop :=
  c.sign = d.sign ∧ (∀ l v, rowCoeff c l v = rowCoeff d l v) ∧
    (∀ l, rowRhs c l = rowRhs d l)



/-- Per-variable record: name, coordinate label, bounds, integrality and
active flag (false after removal; the id is never reused). -/
structure VarInfo where
  name : String
  lab : Lab
  lower : XVal
  upper : XVal
  integer : Bool
  active : Bool
deriving DecidableEq

/-- Modelled from the spec: an arena-style variable store.  Each variable gets
a permanent integer id at declaration time; `nextId` only ever grows, so ids
of removed variables are never reused. -/
structure VarStore where
  nextId : Nat
  names : List String
  vars : List (VarId × VarInfo)
deriving DecidableEq

/-- The empty store. -/
def VarStore.empty : VarStore := { nextId := 0, names := [], vars := [] }

/-- Cross product of per-axis label lists, as coordinate-label tuples. -/
def crossProduct : List (List String) → List Lab
  | [] => [[]]
  | c :: rest => c.flatMap (fun x => (crossProduct rest).map (fun t => x :: t))

/-- The freshly-declared record of one variable. -/
def mkVarInfo (name : String) (lo hi : XVal) (int : Bool) (lab : Lab) : VarInfo :=
  { name := name, lab := lab, lower := lo, upper := hi, integer := int, active := true }

/-- Modelled from the spec: `declare(name, coords, lower, upper, integer)`
allocates one fresh id per label in the cross product of `coords` and returns
the labeled array of new ids together with the updated store; it fails with
`DuplicateName` when the name is already declared, leaving the store unused. -/
def VarStore.declare (s : VarStore) (name : String) (coords : List (List String))
    (lo hi : XVal) (int : Bool) : Except Err (LArr VarId × VarStore) :=
  if name ∈ s.names then .error .DuplicateName
  else
    let labs := crossProduct coords
    let pairs := labs.zip ((List.range labs.length).map (fun i => s.nextId + i))
    .ok (pairs,
      { nextId := s.nextId + labs.length
        names := s.names ++ [name]
        vars := s.vars ++ pairs.map (fun p => (p.2, mkVarInfo name lo hi int p.1)) })

/-- Which bound is being set. -/
inductive BKind where
  | lower : BKind
  | upper : BKind
deriving DecidableEq

/-- A bound value argument: a scalar broadcast over the selection, or a
labeled array aligned to it by label. -/
inductive BArg where
  | scalar (v : XVal) : BArg
  | arr (entries : LArr XVal) : BArg
deriving DecidableEq

/-- Value of a bound argument at a label; `none` when the label is not
covered (a shape mismatch). -/
def bargAt : BArg → Lab → Option XVal
  | .scalar v, _ => some v
  | .arr es, l => (es.find? (fun p => decide (p.1 = l))).map Prod.snd

/-- Replace one bound of a variable record. -/
def setBoundOf (info : VarInfo) (k : BKind) (v : XVal) : VarInfo :=
  match k with
  | .lower => { info with lower := v }
  | .upper => { info with upper := v }

/-- Modelled from the spec: `set_bound(id_selection, kind, value)` replaces the
chosen bound for exactly the ids in the selection, broadcasting or aligning
the value by label; it fails with `ShapeMismatch` when the value does not
cover the label of some selected variable. -/
def VarStore.set_bound (s : VarStore) (sel : List VarId) (k : BKind) (b : BArg) :
    Except Err VarStore :=
  if s.vars.all (fun p => decide (p.1 ∉ sel) || (bargAt b p.2.lab).isSome) then
    .ok { s with vars := s.vars.map (fun p =>
      if p.1 ∈ sel then (p.1, setBoundOf p.2 k ((bargAt b p.2.lab).getD XVal.ninf))
      else p) }
  else .error .ShapeMismatch

/-- Modelled from the spec: `remove(id_selection)` marks the selected ids
inactive; the entries (and their ids) stay in the arena. -/
def VarStore.remove (s : VarStore) (sel : List VarId) : VarStore :=
  { s with vars := s.vars.map (fun p =>
      if p.1 ∈ sel then (p.1, { p.2 with active := false }) else p) }

/-- The id bound to a (name, coordinate-label) pair, if any. -/
def VarStore.idOf (s : VarStore) (name : String) (lab : Lab) : Option VarId :=
  (s.vars.find? (fun p => decide (p.2.name = name ∧ p.2.lab = lab))).map Prod.fst

/-- The stored record of an id, if any. -/
def VarStore.infoOf (s : VarStore) (i : VarId) : Option VarInfo :=
  (s.vars.find? (fun p => decide (p.1 = i))).map Prod.snd

/-- Store well-formedness: every id in the arena is below `nextId`. -/
def VarStore.WF (s : VarStore) : Prop :=
  ∀ p ∈ s.vars, p.1 < s.nextId

instance (s : VarStore) : Decidable s.WF := by
  unfold VarStore.WF
  infer_instance

/-- Per-constraint record: name, coordinate label, row of the left-hand side
(terms plus residual constant), sign, right-hand-side constant and active
flag. -/
structure ConInfo where
  name : String
  lab : Lab
  lhsTerms : List (ℚ × VarId)
  lhsConst : ℚ
  sign : CmpSign
  rhs : ℚ
  active : Bool
deriving DecidableEq

/-- Modelled from the spec: an arena-style constraint store mirroring the
variable store: one permanent id per (name, label) pair. -/
structure ConStore where
  nextId : Nat
  names : List String
  cons : List (ConId × ConInfo)
deriving DecidableEq

/-- The empty constraint store. -/
def ConStore.empty : ConStore := { nextId := 0, names := [], cons := [] }

/-- Modelled from the spec: constraint `declare(name, lhs, sign, rhs)`
allocates one id per label of the raw constraint, mirroring variable-store
semantics; fails with `DuplicateName` on name collision. -/
def ConStore.declare (cs : ConStore) (name : String) (c : RawCon) :
    Except Err (LArr ConId × ConStore) :=
  if name ∈ cs.names then .error .DuplicateName
  else
    let labs := unionLabs (exprLabels c.lhs) (labelsOf c.rhs)
    let pairs := labs.zip ((List.range labs.length).map (fun i => cs.nextId + i))
    .ok (pairs,
      { nextId := cs.nextId + labs.length
        names := cs.names ++ [name]
        cons := cs.cons ++ pairs.map (fun p => (p.2,
          { name := name, lab := p.1, lhsTerms := termsAt c.lhs p.1,
            lhsConst := constAt c.lhs p.1, sign := c.sign,
            rhs := getD c.rhs p.1 0, active := true })) })

/-- A right-hand-side value argument: scalar broadcast or labeled array. -/
inductive QArg where
  | scalar (v : ℚ) : QArg
  | arr (entries : LArr ℚ) : QArg
deriving DecidableEq

/-- Value of a rhs argument at a label; `none` when not covered. -/
def qargAt : QArg → Lab → Option ℚ
  | .scalar v, _ => some v
  | .arr es, l => (es.find? (fun p => decide (p.1 = l))).map Prod.snd

/-- Modelled from the spec: `set_lhs` replaces the left-hand side of the
selected ids in place, slicing the new expression at each constraint's label;
id, name and coordinate identity are unchanged. -/
def ConStore.set_lhs (cs : ConStore) (sel : List ConId) (e : LinExpr) : ConStore :=
  { cs with cons := cs.cons.map (fun p =>
      if p.1 ∈ sel then
        (p.1, { p.2 with lhsTerms := termsAt e p.2.lab, lhsConst := constAt e p.2.lab })
      else p) }

/-- Modelled from the spec: `set_sign` replaces the comparison sign of the
selected ids in place. -/
def ConStore.set_sign (cs : ConStore) (sel : List ConId) (sign : CmpSign) : ConStore :=
  { cs with cons := cs.cons.map (fun p =>
      if p.1 ∈ sel then (p.1, { p.2 with sign := sign }) else p) }

/-- Modelled from the spec: `set_rhs` replaces the right-hand-side constant of
the selected ids in place, broadcasting or aligning the value by label; fails
with `ShapeMismatch` when the value does not cover a selected label. -/
def ConStore.set_rhs (cs : ConStore) (sel : List ConId) (b : QArg) :
    Except Err ConStore :=
  if cs.cons.all (fun p => decide (p.1 ∉ sel) || (qargAt b p.2.lab).isSome) then
    .ok { cs with cons := cs.cons.map (fun p =>
      if p.1 ∈ sel then (p.1, { p.2 with rhs := (qargAt b p.2.lab).getD 0 }) else p) }
  else .error .ShapeMismatch

/-- The id bound to a (name, coordinate-label) pair of constraints, if any. -/
def ConStore.idOf (cs : ConStore) (name : String) (lab : Lab) : Option ConId :=
  (cs.cons.find? (fun p => decide (p.2.name = name ∧ p.2.lab = lab))).map Prod.fst

/-- The stored record of a constraint id, if any. -/
def ConStore.infoOf (cs : ConStore) (i : ConId) : Option ConInfo :=
  (cs.cons.find? (fun p => decide (p.1 = i))).map Prod.snd

/-- Modelled from the spec: `remove` marks the selected constraint ids
inactive. -/
def ConStore.removeCons (cs : ConStore) (sel : List ConId) : ConStore :=
  { cs with cons := cs.cons.map (fun p =>
      if p.1 ∈ sel then (p.1, { p.2 with active := false }) else p) }

/-- Identity of a constraint store is preserved: same next id, same declared
names, same (name, label) to id binding, and per id the same name, label and
active status. -/
def identityPreserved (cs cs' : ConStore) : Prop :=
  cs'.nextId = cs.nextId ∧ cs'.names = cs.names ∧
  (∀ nm lb, cs'.idOf nm lb = cs.idOf nm lb) ∧
  (∀ i, (cs'.infoOf i).map (fun r => (r.name, r.lab, r.active)) =
        (cs.infoOf i).map (fun r => (r.name, r.lab, r.active)))




/-- One column of the solver-ready representation: a variable id with its
bounds and integrality flag. -/
structure ColEntry where
  id : VarId
  lower : XVal
  upper : XVal
  integer : Bool
deriving DecidableEq

/-- One row of the solver-ready representation: a constraint id with its
left-hand-side terms, residual left constant, sign and right-hand side. -/
structure RowEntry where
  id : ConId
  terms : List (ℚ × VarId)
  lconst : ℚ
  sign : CmpSign
  rhs : ℚ
deriving DecidableEq

/-- Modelled from the spec: the solver-ready representation produced by
`translate()`: bound vectors indexed by variable id, rows indexed by
constraint id, and the objective coefficient vector. -/
structure SolverRep where
  cols : List ColEntry
  rows : List RowEntry
  obj : List (ℚ × VarId)
  objConst : ℚ
deriving DecidableEq

/-- Modelled from the spec: the model owns one variable store, one constraint
store, a scalar objective, a cached translation and a cached solution view. -/
structure Model where
  vstore : VarStore
  cstore : ConStore
  obj : List (ℚ × VarId)
  objConst : ℚ
  sense : Sense
  cache : Option SolverRep
  solution : Option (List (VarId × ℚ))
deriving DecidableEq

/-- The structural state of a model: everything except the caches. -/
structure Structural where
  vstore : VarStore
  cstore : ConStore
  obj : List (ℚ × VarId)
  objConst : ℚ
  sense : Sense
deriving DecidableEq

/-- Project the structural state out of a model. -/
def Model.structural (m : Model) : Structural :=
  { vstore := m.vstore, cstore := m.cstore, obj := m.obj,
    objConst := m.objConst, sense := m.sense }

/-- Ids of currently active variables. -/
def activeVarIds (m : Model) : List VarId :=
  (m.vstore.vars.filter (fun p => p.2.active)).map Prod.fst

/-- Translation-time validation: every variable referenced by an active
constraint row or by the objective must be an active variable id. -/
def refsOk (m : Model) : Bool :=
  ((m.cstore.cons.filter (fun p => p.2.active)).all
    (fun p => p.2.lhsTerms.all (fun t => (activeVarIds m).contains t.2))) &&
  m.obj.all (fun t => (activeVarIds m).contains t.2)

/-- Modelled from the spec: the pure translation of the current structural
state into the solver-ready representation, ignoring inactive ids. -/
def computeTranslate (m : Model) : SolverRep :=
  { cols := (m.vstore.vars.filter (fun p => p.2.active)).map
      (fun p => { id := p.1, lower := p.2.lower, upper := p.2.upper, integer := p.2.integer })
    rows := (m.cstore.cons.filter (fun p => p.2.active)).map
      (fun p => { id := p.1, terms := p.2.lhsTerms, lconst := p.2.lhsConst,
                  sign := p.2.sign, rhs := p.2.rhs })
    obj := m.obj
    objConst := m.objConst }

/-- Modelled from the spec: `translate()` validates deferred inactive-id
references, then emits the solver-ready representation. -/
def translate0 (m : Model) : Except Err SolverRep :=
  if refsOk m then .ok (computeTranslate m) else .error .UnknownOrInactiveVariable

/-- Modelled from the spec: the caching wrapper around translation; the cache
is filled on first use and reused until a mutation invalidates it. -/
def Model.translateC (m : Model) : Except Err SolverRep × Model :=
  match m.cache with
  | some r => (.ok r, m)
  | none =>
    match translate0 m with
    | .ok r => (.ok r, { m with cache := some r })
    | .error e => (.error e, m)

/-- The reply of the external solver collaborator for one invocation. -/
inductive SolveOutcome where
  | sol (vals : List (VarId × ℚ)) : SolveOutcome
  | infeasibleOrUnbounded : SolveOutcome
  | solverError : SolveOutcome
deriving DecidableEq

/-- Modelled from the spec: `solve()` translates, invokes the external solver
collaborator exactly once (consuming one outcome of the oracle), writes the
returned values into the solution view on success, and surfaces
`InfeasibleOrUnbounded` or `SolverError` on failure without retrying. -/
def Model.solve (m : Model) (oracle : List SolveOutcome) :
    Except Err Unit × Model × List SolveOutcome :=
  match m.translateC with
  | (.error e, m') => (.error e, m', oracle)
  | (.ok _, m') =>
    match oracle with
    | [] => (.error .SolverError, m', [])
    | .sol vals :: rest => (.ok (), { m' with solution := some vals }, rest)
    | .infeasibleOrUnbounded :: rest => (.error .InfeasibleOrUnbounded, m', rest)
    | .solverError :: rest => (.error .SolverError, m', rest)

/-- Modelled from the spec: model-level bound mutation; invalidates the
translation cache. -/
def Model.setVarBound (m : Model) (sel : List VarId) (k : BKind) (b : BArg) :
    Except Err Model :=
  match m.vstore.set_bound sel k b with
  | .ok vs => .ok { m with vstore := vs, cache := none }
  | .error e => .error e

/-- Modelled from the spec: model-level variable removal; invalidates the
translation cache. -/
def Model.removeVariables (m : Model) (sel : List VarId) : Model :=
  { m with vstore := m.vstore.remove sel, cache := none }

/-- Modelled from the spec: model-level constraint lhs mutation. -/
def Model.setConLhs (m : Model) (sel : List ConId) (e : LinExpr) : Model :=
  { m with cstore := m.cstore.set_lhs sel e, cache := none }

/-- Modelled from the spec: model-level constraint sign mutation. -/
def Model.setConSign (m : Model) (sel : List ConId) (sign : CmpSign) : Model :=
  { m with cstore := m.cstore.set_sign sel sign, cache := none }

/-- Modelled from the spec: model-level constraint rhs mutation. -/
def Model.setConRhs (m : Model) (sel : List ConId) (b : QArg) : Except Err Model :=
  match m.cstore.set_rhs sel b with
  | .ok cst => .ok { m with cstore := cst, cache := none }
  | .error e => .error e

/-- Modelled from the spec: `set_objective(expr, sense)` auto-collapses an
expression that still carries at most one label dimension beyond the term
dimension by summing over it; with more than one spare dimension the collapse
is underdetermined and the call fails with `AmbiguousObjectiveShape`. -/
def Model.setObjective (m : Model) (e : LinExpr) (sn : Sense) : Except Err Model :=
  if e.dims.length ≤ 1 then
    .ok { m with obj := (e.terms.map Prod.snd).flatten
                 objConst := (e.const.map Prod.snd).sum
                 sense := sn
                 cache := none }
  else .error .AmbiguousObjectiveShape



/-- An empty model, used as a concrete evaluation point. -/
def mEmpty : Model :=
  { vstore := VarStore.empty, cstore := ConStore.empty, obj := [], objConst := 0,
    sense := Sense.minimize, cache := none, solution := none }

/-- A concrete expression with one spare label dimension. -/
def eObj1 : LinExpr :=
  { dims := ["time"], terms := [(["a"], [(2, 0)]), (["b"], [(3, 0)])], const := [] }

/-- A concrete expression with two spare label dimensions. -/
def eObj2 : LinExpr :=
  { dims := ["time", "space"], terms := [(["a", "p"], [(2, 0)])], const := [] }



/-- A concrete model with one active and one removed variable and one active
constraint, used as an evaluation point. -/
def mWit : Model :=
  { vstore :=
      { nextId := 2
        names := ["x"]
        vars := [(0, { name := "x", lab := ["a"], lower := XVal.fin 0,
                       upper := XVal.pinf, integer := false, active := true }),
                 (1, { name := "x", lab := ["b"], lower := XVal.fin 0,
                       upper := XVal.pinf, integer := false, active := false })] }
    cstore :=
      { nextId := 1
        names := ["con1"]
        cons := [(0, { name := "con1", lab := ["a"], lhsTerms := [(3, 0)],
                       lhsConst := 0, sign := CmpSign.ge, rhs := 10, active := true })] }
    obj := [(1, 0)]
    objConst := 0
    sense := Sense.minimize
    cache := none
    solution := none }


/-- A concrete one-reply solver oracle. -/
def wOracle : List SolveOutcome := [SolveOutcome.sol [(0, 2)]]



/-- A concrete store with one declared variable, used as an evaluation
point. -/
def w9s : VarStore :=
  { nextId := 2
    names := ["x"]
    vars := [(0, { name := "x", lab := ["a"], lower := XVal.fin 0,
                   upper := XVal.pinf, integer := false, active := true }),
             (1, { name := "x", lab := ["b"], lower := XVal.fin 0,
                   upper := XVal.pinf, integer := false, active := false })] }



/-- Modelled from the spec: the store-lookup mutation path
(`m.variables.x.lower = value`): a direct name-matched in-place bound
replacement. -/
def VarStore.setBoundByName (s : VarStore) (name : String) (k : BKind) (b : BArg) :
    Except Err VarStore :=
  if s.vars.all (fun p => !(decide (p.2.name = name)) || (bargAt b p.2.lab).isSome) then
    .ok { s with vars := s.vars.map (fun p =>
      if p.2.name = name then (p.1, setBoundOf p.2 k ((bargAt b p.2.lab).getD XVal.ninf))
      else p) }
  else .error .ShapeMismatch

/-- Modelled from the spec: the store-lookup mutation path
(`m.constraints.con1.rhs = value`): a direct name-matched in-place rhs
replacement. -/
def ConStore.setRhsByName (cs : ConStore) (name : String) (b : QArg) :
    Except Err ConStore :=
  if cs.cons.all (fun p => !(decide (p.2.name = name)) || (qargAt b p.2.lab).isSome) then
    .ok { cs with cons := cs.cons.map (fun p =>
      if p.2.name = name then (p.1, { p.2 with rhs := (qargAt b p.2.lab).getD 0 })
      else p) }
  else .error .ShapeMismatch

/-- The id selection a standalone handle denotes: all ids declared under the
handle's name. -/
def VarStore.idsOfName (s : VarStore) (name : String) : List VarId :=
  (s.vars.filter (fun q => decide (q.2.name = name))).map Prod.fst

/-- The id selection a standalone constraint handle denotes. -/
def ConStore.idsOfName (cs : ConStore) (name : String) : List ConId :=
  (cs.cons.filter (fun q => decide (q.2.name = name))).map Prod.fst

/-- Modelled from the spec: the standalone-handle mutation path
(`x.lower = value`): resolve the handle's name to its id selection, then go
through the id-based `set_bound`. -/
def Model.setLowerViaHandle (m : Model) (name : String) (b : BArg) : Except Err Model :=
  match m.vstore.set_bound (m.vstore.idsOfName name) BKind.lower b with
  | .ok vs => .ok { m with vstore := vs, cache := none }
  | .error e => .error e

/-- Modelled from the spec: the store-lookup mutation path at model level
(`m.variables.x.lower = value`). -/
def Model.setLowerViaStore (m : Model) (name : String) (b : BArg) : Except Err Model :=
  match m.vstore.setBoundByName name BKind.lower b with
  | .ok vs => .ok { m with vstore := vs, cache := none }
  | .error e => .error e

/-- Modelled from the spec: the standalone-handle mutation path
(`con1.rhs = value`). -/
def Model.setConRhsViaHandle (m : Model) (name : String) (b : QArg) : Except Err Model :=
  match m.cstore.set_rhs (m.cstore.idsOfName name) b with
  | .ok cst => .ok { m with cstore := cst, cache := none }
  | .error e => .error e

/-- Modelled from the spec: the store-lookup mutation path at model level
(`m.constraints.con1.rhs = value`). -/
def Model.setConRhsViaStore (m : Model) (name : String) (b : QArg) : Except Err Model :=
  match m.cstore.setRhsByName name b with
  | .ok cst => .ok { m with cstore := cst, cache := none }
  | .error e => .error e



/-- The labeled id array returned by the witness declare call. -/
def w1pairs : LArr VarId := [(["a"], 2), (["b"], 3)]

/-- The store resulting from the witness declare call. -/
def w1s' : VarStore :=
  { nextId := 4
    names := ["x", "z"]
    vars := [(0, { name := "x", lab := ["a"], lower := XVal.fin 0,
                   upper := XVal.pinf, integer := false, active := true }),
             (1, { name := "x", lab := ["b"], lower := XVal.fin 0,
                   upper := XVal.pinf, integer := false, active := false }),
             (2, { name := "z", lab := ["a"], lower := XVal.fin 1,
                   upper := XVal.pinf, integer := false, active := true }),
             (3, { name := "z", lab := ["b"], lower := XVal.fin 1,
                   upper := XVal.pinf, integer := false, active := true })] }


/-- The store resulting from the witness set_bound call. -/
def w4t : VarStore :=
  { nextId := 2
    names := ["x"]
    vars := [(0, { name := "x", lab := ["a"], lower := XVal.fin 1,
                   upper := XVal.pinf, integer := false, active := true }),
             (1, { name := "x", lab := ["b"], lower := XVal.fin 0,
                   upper := XVal.pinf, integer := false, active := false })] }


theorem mem_unionLabs (x : Lab) (xs ys : List Lab) :
    x ∈ unionLabs xs ys ↔ x ∈ xs ∨ x ∈ ys := by
  simp only [unionLabs, List.mem_append, List.mem_filter, decide_eq_true_eq]
  by_cases hx : x ∈ xs <;> tauto

theorem labelsOf_align {α β γ : Type} (a : LArr α) (b : LArr β) (fa : α) (fb : β)
    (op : α → β → γ) :
    labelsOf (align a b fa fb op) = unionLabs (labelsOf a) (labelsOf b) := by
  simp only [align, labelsOf, List.map_map]
  exact List.map_id'' (fun _ => rfl) _

theorem mem_labelsOf_align {α β γ : Type} (a : LArr α) (b : LArr β) (fa : α) (fb : β)
    (op : α → β → γ) (l : Lab) :
    l ∈ labelsOf (align a b fa fb op) ↔ l ∈ labelsOf a ∨ l ∈ labelsOf b := by
  rw [labelsOf_align]
  exact mem_unionLabs l _ _

theorem getD_cons_eq {α : Type} (x : Lab) (v : α) (rest : LArr α) (l : Lab)
    (fill : α) (h : x = l) : getD ((x, v) :: rest) l fill = v := by
  simp [getD, List.find?_cons_of_pos, h]

theorem getD_cons_ne {α : Type} (x : Lab) (v : α) (rest : LArr α) (l : Lab)
    (fill : α) (h : ¬x = l) : getD ((x, v) :: rest) l fill = getD rest l fill := by
  simp only [getD]
  rw [List.find?_cons_of_neg]
  simp [h]

theorem getD_of_not_mem {α : Type} (a : LArr α) (l : Lab) (fill : α)
    (h : l ∉ labelsOf a) : getD a l fill = fill := by
  induction a with
  | nil => rfl
  | cons p rest ih =>
    obtain ⟨k, v⟩ := p
    simp only [labelsOf, List.map_cons, List.mem_cons, not_or] at h
    rw [getD_cons_ne _ _ _ _ _ (fun hc => h.1 hc.symm)]
    exact ih h.2

theorem getD_map_fn {α : Type} (labs : List Lab) (f : Lab → α) (l : Lab) (fill : α) :
    getD (labs.map (fun x => (x, f x))) l fill = if l ∈ labs then f l else fill := by
  induction labs with
  | nil => rfl
  | cons x rest ih =>
    by_cases hx : x = l
    · subst hx
      rw [List.map_cons, getD_cons_eq _ _ _ _ _ rfl, if_pos (List.mem_cons_self x rest)]
    · rw [List.map_cons, getD_cons_ne _ _ _ _ _ hx, ih]
      by_cases hr : l ∈ rest
      · rw [if_pos hr, if_pos (List.mem_cons_of_mem x hr)]
      · rw [if_neg hr, if_neg ?_]
        intro hc
        rcases List.mem_cons.1 hc with h1 | h2
        · exact hx h1.symm
        · exact hr h2

theorem getD_map_val {α β : Type} (a : LArr α) (g : α → β) (l : Lab) (fa : α) :
    getD (a.map (fun p => (p.1, g p.2))) l (g fa) = g (getD a l fa) := by
  induction a with
  | nil => rfl
  | cons p rest ih =>
    obtain ⟨k, v⟩ := p
    by_cases hp : k = l
    · rw [List.map_cons]
      rw [getD_cons_eq _ _ _ _ _ hp, getD_cons_eq _ _ _ _ _ hp]
    · rw [List.map_cons]
      rw [getD_cons_ne _ _ _ _ _ hp, getD_cons_ne _ _ _ _ _ hp]
      exact ih

/-- C6: for every pair of labeled arrays, align returns a coordinate set that is
exactly the union of the two label sets (nothing dropped, nothing invented),
and alignment is commutative and associative up to label-set ordering, so
repeated pairwise alignment yields the same label set regardless of pairing
order. -/
theorem align_exact_union_comm_assoc {α : Type} (a b c : LArr α) (f : α)
    (op : α → α → α) :
    (∀ l : Lab, l ∈ labelsOf (align a b f f op) ↔ l ∈ labelsOf a ∨ l ∈ labelsOf b) ∧
    (∀ l : Lab, l ∈ labelsOf (align a b f f op) ↔ l ∈ labelsOf (align b a f f op)) ∧
    (∀ l : Lab, l ∈ labelsOf (align (align a b f f op) c f f op) ↔
      l ∈ labelsOf (align a (align b c f f op) f f op)) := by
  refine ⟨fun l => mem_labelsOf_align a b f f op l, fun l => ?_, fun l => ?_⟩
  · simp only [mem_labelsOf_align]
    tauto
  · simp only [mem_labelsOf_align]
    tauto

theorem coeffOf_append (xs ys : List (ℚ × VarId)) (v : VarId) :
    coeffOf (xs ++ ys) v = coeffOf xs v + coeffOf ys v := by
  simp [coeffOf]

theorem coeffOf_scale (k : ℚ) (ts : List (ℚ × VarId)) (v : VarId) :
    coeffOf (ts.map (fun t => (k * t.1, t.2))) v = k * coeffOf ts v := by
  induction ts with
  | nil => simp [coeffOf]
  | cons t rest ih =>
    simp only [List.map_cons, coeffOf, List.sum_cons] at *
    rw [ih]
    by_cases ht : t.2 = v
    · simp only [ht, if_true, if_pos rfl]
      ring
    · simp only [ht, if_false, if_neg ht]
      ring

theorem termsAt_add (a b : LinExpr) (l : Lab) :
    termsAt (a.add b) l = termsAt a l ++ termsAt b l := by
  simp only [termsAt, LinExpr.add, getD_map_fn]
  by_cases hl : l ∈ unionLabs (exprLabels a) (exprLabels b)
  · simp [hl, termsAt]
  · rw [if_neg hl]
    rw [mem_unionLabs] at hl
    push_neg at hl
    have ha : l ∉ labelsOf a.terms := by
      intro hc
      exact hl.1 ((mem_unionLabs l _ _).2 (Or.inl hc))
    have hb : l ∉ labelsOf b.terms := by
      intro hc
      exact hl.2 ((mem_unionLabs l _ _).2 (Or.inl hc))
    rw [getD_of_not_mem _ _ _ ha, getD_of_not_mem _ _ _ hb]
    rfl

theorem constAt_add (a b : LinExpr) (l : Lab) :
    constAt (a.add b) l = constAt a l + constAt b l := by
  simp only [constAt, LinExpr.add, getD_map_fn]
  by_cases hl : l ∈ unionLabs (exprLabels a) (exprLabels b)
  · simp [hl, constAt]
  · rw [if_neg hl]
    rw [mem_unionLabs] at hl
    push_neg at hl
    have ha : l ∉ labelsOf a.const := by
      intro hc
      exact hl.1 ((mem_unionLabs l _ _).2 (Or.inr hc))
    have hb : l ∉ labelsOf b.const := by
      intro hc
      exact hl.2 ((mem_unionLabs l _ _).2 (Or.inr hc))
    rw [getD_of_not_mem _ _ _ ha, getD_of_not_mem _ _ _ hb]
    ring

theorem termsAt_scale (k : ℚ) (e : LinExpr) (l : Lab) :
    termsAt (LinExpr.scale k e) l = (termsAt e l).map (fun t => (k * t.1, t.2)) := by
  simp only [termsAt, LinExpr.scale]
  exact getD_map_val e.terms (fun ts => ts.map (fun t => (k * t.1, t.2))) l []

theorem constAt_scale (k : ℚ) (e : LinExpr) (l : Lab) :
    constAt (LinExpr.scale k e) l = k * constAt e l := by
  simp only [constAt, LinExpr.scale]
  have := getD_map_val e.const (fun q => k * q) l 0
  simpa using this

theorem exprCoeff_add (a b : LinExpr) (l : Lab) (v : VarId) :
    exprCoeff (a.add b) l v = exprCoeff a l v + exprCoeff b l v := by
  simp [exprCoeff, termsAt_add, coeffOf_append]

theorem exprCoeff_scale (k : ℚ) (e : LinExpr) (l : Lab) (v : VarId) :
    exprCoeff (LinExpr.scale k e) l v = k * exprCoeff e l v := by
  simp [exprCoeff, termsAt_scale, coeffOf_scale]

theorem exprCoeff_sub (a b : LinExpr) (l : Lab) (v : VarId) :
    exprCoeff (a.sub b) l v = exprCoeff a l v - exprCoeff b l v := by
  simp only [LinExpr.sub, exprCoeff_add, exprCoeff_scale]
  ring

theorem constAt_sub (a b : LinExpr) (l : Lab) :
    constAt (a.sub b) l = constAt a l - constAt b l := by
  simp only [LinExpr.sub, constAt_add, constAt_scale]
  ring

theorem isConstantOnly_stripVarTerms (rhs : LinExpr) :
    isConstantOnly (stripVarTerms rhs) = true := by
  simp [isConstantOnly, stripVarTerms, List.all_eq_true]

theorem exprCoeff_varPart (e : LinExpr) (l : Lab) (v : VarId) :
    exprCoeff (varPart e) l v = exprCoeff e l v := rfl

theorem constAt_varPart (e : LinExpr) (l : Lab) :
    constAt (varPart e) l = 0 := rfl

theorem exprCoeff_zeroExpr (l : Lab) (v : VarId) :
    exprCoeff zeroExpr l v = 0 := rfl

theorem constAt_zeroExpr (l : Lab) : constAt zeroExpr l = 0 := rfl

/-- C5: building a constraint with a variable-bearing right-hand side moves the
variable terms to the left with exactly negated coefficients:
`compare(expr, sign, k*v)` yields the same solver row as
`compare(expr - k*v, sign, 0)`; and whenever variable terms remain on the
right after the move, `compare` fails with `NonConstantRHS`. -/
theorem compare_signflip_sameRow (e : LinExpr) (sign : CmpSign) (k : ℚ)
    (dims : List String) (ids : LArr VarId) :
    (∃ c₁ c₂ : RawCon,
      compare e sign (LinExpr.scale k (varExpr dims ids)) = Except.ok c₁ ∧
      compare (e.sub (LinExpr.scale k (varExpr dims ids))) sign zeroExpr = Except.ok c₂ ∧
      sameRow c₁ c₂) ∧
    (∀ (e' : LinExpr) (s' : CmpSign) (r' : LinExpr),
      isConstantOnly (stripVarTerms r') = false →
      compare e' s' r' = Except.error Err.NonConstantRHS) := by
  constructor
  · have h₁ : compare e sign (LinExpr.scale k (varExpr dims ids)) =
        Except.ok { lhs := e.sub (varPart (LinExpr.scale k (varExpr dims ids))),
                    sign := sign, rhs := (LinExpr.scale k (varExpr dims ids)).const } := by
      unfold compare
      rw [if_pos (isConstantOnly_stripVarTerms _)]
    have h₂ : compare (e.sub (LinExpr.scale k (varExpr dims ids))) sign zeroExpr =
        Except.ok { lhs := (e.sub (LinExpr.scale k (varExpr dims ids))).sub (varPart zeroExpr),
                    sign := sign, rhs := zeroExpr.const } := by
      unfold compare
      rw [if_pos (isConstantOnly_stripVarTerms _)]
    refine ⟨_, _, h₁, h₂, rfl, ?_, ?_⟩
    · intro l v
      simp only [rowCoeff, exprCoeff_sub]
      rw [show exprCoeff (varPart (LinExpr.scale k (varExpr dims ids))) l v =
          exprCoeff (LinExpr.scale k (varExpr dims ids)) l v from rfl]
      rw [show exprCoeff (varPart zeroExpr) l v = 0 from rfl]
      ring
    · intro l
      simp only [rowRhs, constAt_sub]
      rw [show constAt (varPart (LinExpr.scale k (varExpr dims ids))) l = 0 from rfl]
      rw [show constAt (varPart zeroExpr) l = 0 from rfl]
      have hrc : (LinExpr.scale k (varExpr dims ids)).const = [] := by
        simp [LinExpr.scale, varExpr]
      have hz : (zeroExpr).const = ([] : LArr ℚ) := rfl
      rw [hrc, hz]
      have hc : constAt (LinExpr.scale k (varExpr dims ids)) l = 0 := by
        simp [constAt, hrc, getD]
      rw [hc]
      simp [getD]
  · intro e' s' r' h
    simp [compare, h]

/-- Witness for C5 at concrete inputs. -/
theorem compare_signflip_sameRow_witness :
    (∃ c₁ c₂ : RawCon,
      compare zeroExpr CmpSign.ge (LinExpr.scale 2 (varExpr ["t"] [(["a"], 0)])) = Except.ok c₁ ∧
      compare (zeroExpr.sub (LinExpr.scale 2 (varExpr ["t"] [(["a"], 0)]))) CmpSign.ge zeroExpr = Except.ok c₂ ∧
      sameRow c₁ c₂) ∧
    (∀ (e' : LinExpr) (s' : CmpSign) (r' : LinExpr),
      isConstantOnly (stripVarTerms r') = false →
      compare e' s' r' = Except.error Err.NonConstantRHS) :=
  compare_signflip_sameRow zeroExpr CmpSign.ge 2 ["t"] [(["a"], 0)]

theorem map_find?_comm {α : Type} (l : List α) (f : α → α) (q : α → Bool)
    (hq : ∀ x, q (f x) = q x) :
    (l.map f).find? q = (l.find? q).map f := by
  induction l with
  | nil => rfl
  | cons x rest ih =>
    by_cases hx : q x = true
    · rw [List.map_cons, List.find?_cons_of_pos _ (by rw [hq]; exact hx),
        List.find?_cons_of_pos _ hx]
      rfl
    · rw [List.map_cons, List.find?_cons_of_neg _ (by rw [hq]; simpa using hx),
        List.find?_cons_of_neg _ (by simpa using hx)]
      exact ih

theorem find?_append_of_none {α : Type} (l₁ l₂ : List α) (q : α → Bool)
    (h : ∀ x ∈ l₁, q x = false) :
    (l₁ ++ l₂).find? q = l₂.find? q := by
  induction l₁ with
  | nil => rfl
  | cons x rest ih =>
    rw [List.cons_append, List.find?_cons_of_neg _ (by simp [h x (List.mem_cons_self x rest)])]
    exact ih (fun y hy => h y (List.mem_cons_of_mem x hy))

theorem find?_append_of_found {α : Type} (l₁ l₂ : List α) (q : α → Bool) (x : α)
    (h : l₁.find? q = some x) : (l₁ ++ l₂).find? q = some x := by
  rw [List.find?_append, h]
  rfl

theorem mem_filter_map_fst_iff {α : Type} (l : List (Nat × α))
    (hnd : (l.map Prod.fst).Nodup) (pred : α → Bool) (p : Nat × α) (hp : p ∈ l) :
    p.1 ∈ (l.filter (fun q => pred q.2)).map Prod.fst ↔ pred p.2 = true := by
  constructor
  · intro h
    rcases List.mem_map.1 h with ⟨q, hq, hq1⟩
    rcases List.mem_filter.1 hq with ⟨hql, hqp⟩
    have : q = p := List.inj_on_of_nodup_map hnd hql hp hq1
    rw [← this]
    exact hqp
  · intro h
    exact List.mem_map.2 ⟨p, List.mem_filter.2 ⟨hp, h⟩, rfl⟩

theorem conIdOf_map_stable (cs : ConStore) (nm : String) (lb : Lab)
    (f : ConId × ConInfo → ConId × ConInfo)
    (h1 : ∀ p, (f p).1 = p.1)
    (h2 : ∀ p, (f p).2.name = p.2.name)
    (h3 : ∀ p, (f p).2.lab = p.2.lab)
    (nextId' : Nat) (names' : List String) :
    ConStore.idOf { nextId := nextId', names := names', cons := cs.cons.map f } nm lb
      = cs.idOf nm lb := by
  unfold ConStore.idOf
  simp only
  rw [map_find?_comm _ f _ (fun x => decide_eq_decide.2 (by rw [h2 x, h3 x]))]
  cases hfind : cs.cons.find? (fun p => decide (p.2.name = nm ∧ p.2.lab = lb)) with
  | none => rfl
  | some p => simp [h1]

theorem conProj_map_stable (cs : ConStore) (i : ConId)
    (f : ConId × ConInfo → ConId × ConInfo)
    (h1 : ∀ p, (f p).1 = p.1)
    (h2 : ∀ p, (f p).2.name = p.2.name)
    (h3 : ∀ p, (f p).2.lab = p.2.lab)
    (h4 : ∀ p, (f p).2.active = p.2.active)
    (nextId' : Nat) (names' : List String) :
    (ConStore.infoOf { nextId := nextId', names := names', cons := cs.cons.map f } i).map
        (fun r => (r.name, r.lab, r.active))
      = (cs.infoOf i).map (fun r => (r.name, r.lab, r.active)) := by
  unfold ConStore.infoOf
  simp only
  rw [map_find?_comm _ f _ (fun x => decide_eq_decide.2 (by rw [h1 x]))]
  cases hfind : cs.cons.find? (fun p => decide (p.1 = i)) with
  | none => rfl
  | some p => simp [h2, h3, h4]

theorem identityPreserved_of_map (cs : ConStore)
    (f : ConId × ConInfo → ConId × ConInfo)
    (h1 : ∀ p, (f p).1 = p.1)
    (h2 : ∀ p, (f p).2.name = p.2.name)
    (h3 : ∀ p, (f p).2.lab = p.2.lab)
    (h4 : ∀ p, (f p).2.active = p.2.active) :
    identityPreserved cs { nextId := cs.nextId, names := cs.names, cons := cs.cons.map f } := by
  refine ⟨rfl, rfl, fun nm lb => ?_, fun i => ?_⟩
  · exact conIdOf_map_stable cs nm lb f h1 h2 h3 cs.nextId cs.names
  · exact conProj_map_stable cs i f h1 h2 h3 h4 cs.nextId cs.names

/-- C2: mutating the left-hand side, sign or right-hand side of a named
constraint through `set_lhs`/`set_sign`/`set_rhs` leaves the constraint's id,
name and coordinate labels unchanged, so the same handle refers to the same
solver row before and after the mutation. -/
theorem constraint_mutation_preserves_identity (cs : ConStore) (sel : List ConId)
    (e : LinExpr) (sign : CmpSign) (b : QArg) :
    identityPreserved cs (cs.set_lhs sel e) ∧
    identityPreserved cs (cs.set_sign sel sign) ∧
    (∀ cs', cs.set_rhs sel b = Except.ok cs' → identityPreserved cs cs') := by
  refine ⟨?_, ?_, ?_⟩
  · apply identityPreserved_of_map
    all_goals intro p
    all_goals by_cases hp : p.1 ∈ sel
    all_goals simp [hp]
  · apply identityPreserved_of_map
    all_goals intro p
    all_goals by_cases hp : p.1 ∈ sel
    all_goals simp [hp]
  · intro cs' h
    unfold ConStore.set_rhs at h
    by_cases hg : cs.cons.all (fun p => decide (p.1 ∉ sel) || (qargAt b p.2.lab).isSome) = true
    · rw [if_pos hg] at h
      injection h with h
      rw [← h]
      apply identityPreserved_of_map
      all_goals intro p
      all_goals by_cases hp : p.1 ∈ sel
      all_goals simp [hp]
    · rw [if_neg hg] at h
      exact absurd h (by simp)

/-- Witness for C2 at concrete inputs: mutating the one constraint of a
populated store. -/
theorem constraint_mutation_preserves_identity_witness :
    identityPreserved mWit.cstore (mWit.cstore.set_lhs [0] zeroExpr) ∧
    identityPreserved mWit.cstore (mWit.cstore.set_sign [0] CmpSign.le) ∧
    (∀ cs', mWit.cstore.set_rhs [0] (QArg.scalar 8) = Except.ok cs' →
      identityPreserved mWit.cstore cs') :=
  constraint_mutation_preserves_identity mWit.cstore [0] zeroExpr CmpSign.le (QArg.scalar 8)

theorem varIdOf_map_stable (s : VarStore) (nm : String) (lb : Lab)
    (f : VarId × VarInfo → VarId × VarInfo)
    (h1 : ∀ p, (f p).1 = p.1)
    (h2 : ∀ p, (f p).2.name = p.2.name)
    (h3 : ∀ p, (f p).2.lab = p.2.lab)
    (nextId' : Nat) (names' : List String) :
    VarStore.idOf { nextId := nextId', names := names', vars := s.vars.map f } nm lb
      = s.idOf nm lb := by
  unfold VarStore.idOf
  simp only
  rw [map_find?_comm _ f _ (fun x => decide_eq_decide.2 (by rw [h2 x, h3 x]))]
  cases hfind : s.vars.find? (fun p => decide (p.2.name = nm ∧ p.2.lab = lb)) with
  | none => rfl
  | some p => simp [h1]

theorem varInfoOf_map_stable (s : VarStore) (i : VarId)
    (f : VarId × VarInfo → VarId × VarInfo)
    (h1 : ∀ p, (f p).1 = p.1)
    (nextId' : Nat) (names' : List String) :
    VarStore.infoOf { nextId := nextId', names := names', vars := s.vars.map f } i
      = ((s.vars.find? (fun p => decide (p.1 = i))).map f).map Prod.snd := by
  unfold VarStore.infoOf
  simp only
  rw [map_find?_comm _ f _ (fun x => decide_eq_decide.2 (by rw [h1 x]))]

theorem find?_fst_eq_of_nodup {α : Type} (l : List (Nat × α))
    (hnd : (l.map Prod.fst).Nodup) (p : Nat × α) (hp : p ∈ l) :
    l.find? (fun q => decide (q.1 = p.1)) = some p := by
  induction l with
  | nil => cases hp
  | cons x rest ih =>
    rw [List.map_cons, List.nodup_cons] at hnd
    rcases List.mem_cons.1 hp with h1 | h2
    · subst h1
      exact List.find?_cons_of_pos _ (by simp)
    · have hx1 : ¬x.1 = p.1 := by
        intro hc
        apply hnd.1
        rw [hc]
        exact List.mem_map.2 ⟨p, h2, rfl⟩
      rw [List.find?_cons_of_neg _ (by simpa using hx1)]
      exact ih hnd.2 h2

theorem setBoundOf_name (info : VarInfo) (k : BKind) (v : XVal) :
    (setBoundOf info k v).name = info.name := by
  cases k <;> rfl

theorem setBoundOf_lab (info : VarInfo) (k : BKind) (v : XVal) :
    (setBoundOf info k v).lab = info.lab := by
  cases k <;> rfl

theorem setBoundOf_active (info : VarInfo) (k : BKind) (v : XVal) :
    (setBoundOf info k v).active = info.active := by
  cases k <;> rfl

theorem set_bound_ok_vars (s : VarStore) (sel : List VarId) (k : BKind) (b : BArg)
    (s' : VarStore) (h : s.set_bound sel k b = Except.ok s') :
    s' = { s with vars := s.vars.map (fun p =>
      if p.1 ∈ sel then (p.1, setBoundOf p.2 k ((bargAt b p.2.lab).getD XVal.ninf))
      else p) } ∧
    ∀ p ∈ s.vars, p.1 ∈ sel → (bargAt b p.2.lab).isSome = true := by
  unfold VarStore.set_bound at h
  by_cases hg : s.vars.all (fun p => decide (p.1 ∉ sel) || (bargAt b p.2.lab).isSome) = true
  · rw [if_pos hg] at h
    injection h with h
    refine ⟨h.symm, fun p hp hpsel => ?_⟩
    have := (List.all_eq_true.1 hg) p hp
    rcases Bool.or_eq_true_iff.1 this with h1 | h2
    · exact absurd hpsel (by simpa using h1)
    · exact h2
  · rw [if_neg hg] at h
    exact absurd h (by simp)

/-- C4: for every variable store and every `set_bound` call on a selection of
ids, the bound and all other attributes of every id outside the selection are
unchanged, while for every selected id the chosen bound is replaced by the
aligned value and the name, label, other bound, integrality and active flag
are untouched. -/
theorem set_bound_frame (s : VarStore) (sel : List VarId) (k : BKind) (b : BArg)
    (s' : VarStore) (hnd : (s.vars.map Prod.fst).Nodup)
    (h : s.set_bound sel k b = Except.ok s') :
    (∀ i, i ∉ sel → s'.infoOf i = s.infoOf i) ∧
    (∀ p ∈ s.vars, p.1 ∈ sel → ∃ v, bargAt b p.2.lab = some v ∧
      s'.infoOf p.1 = some (setBoundOf p.2 k v)) := by
  obtain ⟨hs', hcov⟩ := set_bound_ok_vars s sel k b s' h
  subst hs'
  constructor
  · intro i hi
    rw [show ({ s with vars := s.vars.map (fun p =>
        if p.1 ∈ sel then (p.1, setBoundOf p.2 k ((bargAt b p.2.lab).getD XVal.ninf))
        else p) } : VarStore).infoOf i =
      ((s.vars.find? (fun p => decide (p.1 = i))).map (fun p =>
        if p.1 ∈ sel then (p.1, setBoundOf p.2 k ((bargAt b p.2.lab).getD XVal.ninf))
        else p)).map Prod.snd from varInfoOf_map_stable s i _
        (fun p => by by_cases hp : p.1 ∈ sel <;> simp [hp]) _ _]
    cases hfind : s.vars.find? (fun p => decide (p.1 = i)) with
    | none => simp [VarStore.infoOf, hfind]
    | some p =>
      have hpi : p.1 = i := by
        have := List.find?_some hfind
        simpa using this
      have : p.1 ∉ sel := by rw [hpi]; exact hi
      simp [VarStore.infoOf, hfind, this]
  · intro p hp hpsel
    have hsome := hcov p hp hpsel
    rcases Option.isSome_iff_exists.1 hsome with ⟨v, hv⟩
    refine ⟨v, hv, ?_⟩
    rw [show ({ s with vars := s.vars.map (fun q =>
        if q.1 ∈ sel then (q.1, setBoundOf q.2 k ((bargAt b q.2.lab).getD XVal.ninf))
        else q) } : VarStore).infoOf p.1 =
      ((s.vars.find? (fun q => decide (q.1 = p.1))).map (fun q =>
        if q.1 ∈ sel then (q.1, setBoundOf q.2 k ((bargAt b q.2.lab).getD XVal.ninf))
        else q)).map Prod.snd from varInfoOf_map_stable s p.1 _
        (fun q => by by_cases hq : q.1 ∈ sel <;> simp [hq]) _ _]
    have hfind : s.vars.find? (fun q => decide (q.1 = p.1)) = some p :=
      find?_fst_eq_of_nodup s.vars hnd p hp
    rw [hfind]
    simp [hpsel, hv]

theorem translateC_cache_some (m : Model) (r : SolverRep) (hc : m.cache = some r) :
    m.translateC = (Except.ok r, m) := by
  unfold Model.translateC
  rw [hc]

theorem translateC_cache_none_ok (m : Model) (r : SolverRep) (hc : m.cache = none)
    (h0 : translate0 m = Except.ok r) :
    m.translateC = (Except.ok r, { m with cache := some r }) := by
  unfold Model.translateC
  rw [hc]
  show (match translate0 m with
    | .ok r => ((Except.ok r : Except Err SolverRep), { m with cache := some r })
    | .error e => (.error e, m)) = _
  rw [h0]

theorem translateC_cache_none_err (m : Model) (e : Err) (hc : m.cache = none)
    (h0 : translate0 m = Except.error e) :
    m.translateC = (Except.error e, m) := by
  unfold Model.translateC
  rw [hc]
  show (match translate0 m with
    | .ok r => ((Except.ok r : Except Err SolverRep), { m with cache := some r })
    | .error e => (.error e, m)) = _
  rw [h0]

theorem translateC_snd_frame (m : Model) :
    m.translateC.2.structural = m.structural ∧ m.translateC.2.solution = m.solution := by
  cases hc : m.cache with
  | some r => rw [translateC_cache_some m r hc]; exact ⟨rfl, rfl⟩
  | none =>
    cases h0 : translate0 m with
    | ok r => rw [translateC_cache_none_ok m r hc h0]; exact ⟨rfl, rfl⟩
    | error e => rw [translateC_cache_none_err m e hc h0]; exact ⟨rfl, rfl⟩

theorem translateC_error_shape (m : Model) (e : Err) (h : m.translateC.1 = Except.error e) :
    e = Err.UnknownOrInactiveVariable := by
  cases hc : m.cache with
  | some r => rw [translateC_cache_some m r hc] at h; cases h
  | none =>
    cases h0 : translate0 m with
    | ok r => rw [translateC_cache_none_ok m r hc h0] at h; cases h
    | error e' =>
      rw [translateC_cache_none_err m e' hc h0] at h
      injection h with h
      unfold translate0 at h0
      by_cases hr : refsOk m = true
      · rw [if_pos hr] at h0; cases h0
      · rw [if_neg hr] at h0
        injection h0 with h0
        rw [← h, ← h0]

theorem translate0_structural_only (m m' : Model)
    (h : m'.structural = m.structural) : translate0 m' = translate0 m := by
  have hv : m'.vstore = m.vstore := congrArg Structural.vstore h
  have hcs : m'.cstore = m.cstore := congrArg Structural.cstore h
  have ho : m'.obj = m.obj := congrArg Structural.obj h
  have hoc : m'.objConst = m.objConst := congrArg Structural.objConst h
  unfold translate0 refsOk computeTranslate activeVarIds
  rw [hv, hcs, ho, hoc]

/-- C3: with an invalidated cache (the state every mutation leaves behind),
translation is a deterministic, pure function of the structural
Variable/Constraint/Objective state (the solution view does not influence it),
calling it twice with no intervening mutation returns identical output and an
identical model, and its output mentions no inactive variable or constraint
id. -/
theorem translate_idempotent_pure_ignores_inactive (m : Model)
    (hc : m.cache = none)
    (hvnd : (m.vstore.vars.map Prod.fst).Nodup)
    (hcnd : (m.cstore.cons.map Prod.fst).Nodup) :
    (m.translateC.2.translateC.1 = m.translateC.1 ∧
      m.translateC.2.translateC.2 = m.translateC.2) ∧
    (∀ m' : Model, m'.structural = m.structural → m'.cache = m.cache →
      m'.translateC.1 = m.translateC.1) ∧
    (∀ rep, m.translateC.1 = Except.ok rep →
      (∀ p ∈ m.vstore.vars, p.2.active = false → ∀ ce ∈ rep.cols, ce.id ≠ p.1) ∧
      (∀ q ∈ m.cstore.cons, q.2.active = false → ∀ re ∈ rep.rows, re.id ≠ q.1)) := by
  refine ⟨?_, ?_, ?_⟩
  · cases h0 : translate0 m with
    | ok r =>
      rw [translateC_cache_none_ok m r hc h0]
      simp only
      rw [translateC_cache_some { m with cache := some r } r rfl]
      exact ⟨rfl, rfl⟩
    | error e =>
      have ht := translateC_cache_none_err m e hc h0
      rw [ht]
      show m.translateC.1 = Except.error e ∧ m.translateC.2 = m
      rw [ht]
      exact ⟨rfl, rfl⟩
  · intro m' hstr hcache
    rw [hc] at hcache
    have h0 : translate0 m' = translate0 m := translate0_structural_only m m' hstr
    cases ht : translate0 m with
    | ok r =>
      rw [translateC_cache_none_ok m r hc ht,
        translateC_cache_none_ok m' r hcache (by rw [h0, ht])]
    | error e =>
      rw [translateC_cache_none_err m e hc ht,
        translateC_cache_none_err m' e hcache (by rw [h0, ht])]
  · intro rep hrep
    have hrep0 : translate0 m = Except.ok rep := by
      cases ht : translate0 m with
      | ok r =>
        rw [translateC_cache_none_ok m r hc ht] at hrep
        injection hrep with hrep
        rw [hrep]
      | error e =>
        rw [translateC_cache_none_err m e hc ht] at hrep
        cases hrep
    have hcompute : rep = computeTranslate m := by
      unfold translate0 at hrep0
      by_cases hr : refsOk m = true
      · rw [if_pos hr] at hrep0
        injection hrep0 with hrep0
        rw [hrep0]
      · rw [if_neg hr] at hrep0
        cases hrep0
    subst hcompute
    constructor
    · intro p hp hpact ce hce hid
      rcases List.mem_map.1 hce with ⟨q, hq, hqe⟩
      rcases List.mem_filter.1 hq with ⟨hql, hqa⟩
      have : q.1 = p.1 := by rw [← hid, ← hqe]
      have hqp : q = p := List.inj_on_of_nodup_map hvnd hql hp this
      rw [hqp] at hqa
      rw [hpact] at hqa
      cases hqa
    · intro q hq hqact re hre hid
      rcases List.mem_map.1 hre with ⟨w, hw, hwe⟩
      rcases List.mem_filter.1 hw with ⟨hwl, hwa⟩
      have : w.1 = q.1 := by rw [← hid, ← hwe]
      have hwq : w = q := List.inj_on_of_nodup_map hcnd hwl hq this
      rw [hwq] at hwa
      rw [hqact] at hwa
      cases hwa

theorem coeffOf_flatten (L : List (List (ℚ × VarId))) (v : VarId) :
    coeffOf L.flatten v = (L.map (fun ts => coeffOf ts v)).sum := by
  induction L with
  | nil => rfl
  | cons ts rest ih =>
    rw [List.flatten_cons, coeffOf_append, List.map_cons, List.sum_cons, ih]

/-- C7: assigning an objective expression that still carries one spare label
dimension beyond the term dimension collapses it by summing over that
dimension (the resulting coefficient of each variable is the sum of its
per-label coefficients); with conflicting dimension intents (two or more
spare dimensions) `set_objective` fails with `AmbiguousObjectiveShape`
instead of picking an axis. -/
theorem objective_collapse_or_ambiguous (m : Model) (e : LinExpr) (sn : Sense) :
    (e.dims.length ≤ 1 →
      ∃ m', m.setObjective e sn = Except.ok m' ∧
        (∀ v, coeffOf m'.obj v = (e.terms.map (fun p => coeffOf p.2 v)).sum) ∧
        m'.objConst = (e.const.map Prod.snd).sum ∧
        m'.vstore = m.vstore ∧ m'.cstore = m.cstore ∧ m'.sense = sn) ∧
    (2 ≤ e.dims.length →
      m.setObjective e sn = Except.error Err.AmbiguousObjectiveShape) := by
  constructor
  · intro hle
    refine ⟨{ m with obj := (e.terms.map Prod.snd).flatten
                     objConst := (e.const.map Prod.snd).sum
                     sense := sn
                     cache := none }, ?_, ?_, rfl, rfl, rfl, rfl⟩
    · unfold Model.setObjective
      rw [if_pos hle]
    · intro v
      simp only
      rw [coeffOf_flatten, List.map_map]
      rfl
  · intro hge
    unfold Model.setObjective
    rw [if_neg (by omega)]

/-- Witness for C7 at concrete inputs: a one-spare-dimension expression is
collapsed, a two-dimension expression is rejected. -/
theorem objective_collapse_or_ambiguous_witness :
    (eObj1.dims.length ≤ 1 ∧
      ∃ m', mEmpty.setObjective eObj1 Sense.minimize = Except.ok m' ∧
        (∀ v, coeffOf m'.obj v = (eObj1.terms.map (fun p => coeffOf p.2 v)).sum) ∧
        m'.objConst = (eObj1.const.map Prod.snd).sum ∧
        m'.vstore = mEmpty.vstore ∧ m'.cstore = mEmpty.cstore ∧
        m'.sense = Sense.minimize) ∧
    (2 ≤ eObj2.dims.length ∧
      mEmpty.setObjective eObj2 Sense.minimize = Except.error Err.AmbiguousObjectiveShape) :=
  ⟨⟨by decide,
    (objective_collapse_or_ambiguous mEmpty eObj1 Sense.minimize).1 (by decide)⟩,
   ⟨by decide,
    (objective_collapse_or_ambiguous mEmpty eObj2 Sense.minimize).2 (by decide)⟩⟩

/-- C8: `solve` never mutates the structural model state: on success only the
cached solution view is updated with the collaborator's values; on failure
(`InfeasibleOrUnbounded`, `SolverError`, or a validation error reported
before any solver invocation) the error is surfaced once, at most one solver
outcome is consumed (no retry), and the model keeps its pre-solve structural
state and solution view. -/
theorem solve_frame_once (m : Model) (oracle : List SolveOutcome)
    (res : Except Err Unit) (m₂ : Model) (rest : List SolveOutcome)
    (h : m.solve oracle = (res, m₂, rest)) :
    m₂.structural = m.structural ∧
    (rest = oracle ∨ rest = oracle.tail) ∧
    (∀ er, res = Except.error er → m₂.solution = m.solution ∧
      (er = Err.InfeasibleOrUnbounded ∨ er = Err.SolverError ∨
        er = Err.UnknownOrInactiveVariable)) ∧
    (res = Except.ok () → ∃ vals, oracle.head? = some (SolveOutcome.sol vals) ∧
      m₂.solution = some vals ∧ rest = oracle.tail) := by
  have hfr := translateC_snd_frame m
  unfold Model.solve at h
  rcases htc : m.translateC with ⟨r, m'⟩
  rw [htc] at h
  have hst : m'.structural = m.structural := by
    have := hfr.1
    rw [htc] at this
    exact this
  have hso : m'.solution = m.solution := by
    have := hfr.2
    rw [htc] at this
    exact this
  cases r with
  | error e =>
    have herr : e = Err.UnknownOrInactiveVariable :=
      translateC_error_shape m e (by rw [htc])
    have h' : ((Except.error e : Except Err Unit), m', oracle) = (res, m₂, rest) := h
    injection h' with h1 h23
    injection h23 with h2 h3
    subst h1
    subst h2
    subst h3
    refine ⟨hst, Or.inl rfl, ?_, ?_⟩
    · intro er he
      injection he with he
      exact ⟨hso, by rw [← he, herr]; tauto⟩
    · intro he
      cases he
  | ok u =>
    cases oracle with
    | nil =>
      have h' : ((Except.error Err.SolverError : Except Err Unit), m',
          ([] : List SolveOutcome)) = (res, m₂, rest) := h
      injection h' with h1 h23
      injection h23 with h2 h3
      subst h1
      subst h2
      subst h3
      refine ⟨hst, Or.inl rfl, ?_, ?_⟩
      · intro er he
        injection he with he
        exact ⟨hso, by rw [← he]; tauto⟩
      · intro he
        cases he
    | cons o rest' =>
      cases o with
      | sol vals =>
        have h' : ((Except.ok () : Except Err Unit),
            { m' with solution := some vals }, rest') = (res, m₂, rest) := h
        injection h' with h1 h23
        injection h23 with h2 h3
        subst h1
        subst h2
        subst h3
        refine ⟨hst, Or.inr rfl, ?_, ?_⟩
        · intro er he
          cases he
        · intro _
          exact ⟨vals, rfl, rfl, rfl⟩
      | infeasibleOrUnbounded =>
        have h' : ((Except.error Err.InfeasibleOrUnbounded : Except Err Unit),
            m', rest') = (res, m₂, rest) := h
        injection h' with h1 h23
        injection h23 with h2 h3
        subst h1
        subst h2
        subst h3
        refine ⟨hst, Or.inr rfl, ?_, ?_⟩
        · intro er he
          injection he with he
          exact ⟨hso, by rw [← he]; tauto⟩
        · intro he
          cases he
      | solverError =>
        have h' : ((Except.error Err.SolverError : Except Err Unit),
            m', rest') = (res, m₂, rest) := h
        injection h' with h1 h23
        injection h23 with h2 h3
        subst h1
        subst h2
        subst h3
        refine ⟨hst, Or.inr rfl, ?_, ?_⟩
        · intro er he
          injection he with he
          exact ⟨hso, by rw [← he]; tauto⟩
        · intro he
          cases he

/-- Witness for C3 at a concrete model. -/
theorem translate_idempotent_witness :
    (mWit.cache = none ∧ (mWit.vstore.vars.map Prod.fst).Nodup ∧
      (mWit.cstore.cons.map Prod.fst).Nodup) ∧
    ((mWit.translateC.2.translateC.1 = mWit.translateC.1 ∧
      mWit.translateC.2.translateC.2 = mWit.translateC.2) ∧
    (∀ m' : Model, m'.structural = mWit.structural → m'.cache = mWit.cache →
      m'.translateC.1 = mWit.translateC.1) ∧
    (∀ rep, mWit.translateC.1 = Except.ok rep →
      (∀ p ∈ mWit.vstore.vars, p.2.active = false → ∀ ce ∈ rep.cols, ce.id ≠ p.1) ∧
      (∀ q ∈ mWit.cstore.cons, q.2.active = false → ∀ re ∈ rep.rows, re.id ≠ q.1))) :=
  ⟨⟨rfl, by decide, by decide⟩,
   translate_idempotent_pure_ignores_inactive mWit rfl (by decide) (by decide)⟩

/-- Witness for C8 at a concrete model and oracle. -/
theorem solve_frame_once_witness :
    (mWit.solve wOracle =
      ((mWit.solve wOracle).1, (mWit.solve wOracle).2.1, (mWit.solve wOracle).2.2)) ∧
    ((mWit.solve wOracle).2.1.structural = mWit.structural ∧
      ((mWit.solve wOracle).2.2 = wOracle ∨ (mWit.solve wOracle).2.2 = wOracle.tail) ∧
      (∀ er, (mWit.solve wOracle).1 = Except.error er →
        (mWit.solve wOracle).2.1.solution = mWit.solution ∧
        (er = Err.InfeasibleOrUnbounded ∨ er = Err.SolverError ∨
          er = Err.UnknownOrInactiveVariable)) ∧
      ((mWit.solve wOracle).1 = Except.ok () →
        ∃ vals, wOracle.head? = some (SolveOutcome.sol vals) ∧
          (mWit.solve wOracle).2.1.solution = some vals ∧
          (mWit.solve wOracle).2.2 = wOracle.tail)) :=
  ⟨rfl, solve_frame_once mWit wOracle (mWit.solve wOracle).1 (mWit.solve wOracle).2.1
    (mWit.solve wOracle).2.2 rfl⟩

theorem crossProduct_length (coords : List (List String)) :
    (crossProduct coords).length = (coords.map List.length).prod := by
  induction coords with
  | nil => rfl
  | cons c rest ih =>
    simp only [crossProduct, List.length_flatMap, List.map_cons, List.prod_cons]
    have hmap : List.map (List.length ∘ fun x => List.map (fun t => x :: t) (crossProduct rest)) c
        = c.map (fun _ => (crossProduct rest).length) :=
      List.map_congr_left (fun x _ => by simp)
    rw [hmap, List.map_const', List.sum_replicate, smul_eq_mul, ih]

theorem crossProduct_nodup (coords : List (List String))
    (h : ∀ c ∈ coords, c.Nodup) : (crossProduct coords).Nodup := by
  induction coords with
  | nil => simp [crossProduct]
  | cons c rest ih =>
    simp only [crossProduct]
    rw [List.nodup_flatMap]
    constructor
    · intro x _
      exact (ih (fun d hd => h d (List.mem_cons_of_mem c hd))).map
        (fun a b hab => by injection hab)
    · have hc : c.Nodup := h c (List.mem_cons_self c rest)
      refine List.Pairwise.imp ?_ hc
      intro x y hxy a hax hay
      rcases List.mem_map.1 hax with ⟨t, _, ht⟩
      rcases List.mem_map.1 hay with ⟨t', _, ht'⟩
      rw [← ht'] at ht
      injection ht with h1 _
      exact hxy h1

theorem declare_ok_parts (s : VarStore) (name : String) (coords : List (List String))
    (lo hi : XVal) (int : Bool) (pairs : LArr VarId) (s' : VarStore)
    (h : s.declare name coords lo hi int = Except.ok (pairs, s')) :
    name ∉ s.names ∧
    pairs = (crossProduct coords).zip
      ((List.range (crossProduct coords).length).map (fun i => s.nextId + i)) ∧
    s' = { nextId := s.nextId + (crossProduct coords).length
           names := s.names ++ [name]
           vars := s.vars ++ pairs.map (fun p => (p.2, mkVarInfo name lo hi int p.1)) } := by
  unfold VarStore.declare at h
  by_cases hn : name ∈ s.names
  · rw [if_pos hn] at h
    cases h
  · rw [if_neg hn] at h
    injection h with h
    injection h with h1 h2
    exact ⟨hn, h1.symm, by rw [← h2, ← h1]⟩

theorem labelsOf_zip_range (labs : List Lab) (base : Nat) :
    labelsOf (labs.zip ((List.range labs.length).map (fun i => base + i))) = labs := by
  unfold labelsOf
  rw [List.map_fst_zip]
  rw [List.length_map, List.length_range]

theorem ids_zip_range (labs : List Lab) (base : Nat) :
    (labs.zip ((List.range labs.length).map (fun i => base + i))).map Prod.snd
      = (List.range labs.length).map (fun i => base + i) := by
  rw [List.map_snd_zip]
  rw [List.length_map, List.length_range]

/-- C9: declaring a variable whose name is already in use fails with
`DuplicateName`, synchronously at the declare call, leaving the store
untouched; a fresh declare allocates exactly one id per label of the cross
product of the coordinates (consecutive fresh ids, pairwise distinct) and
returns the labeled array of those ids. -/
theorem declare_duplicate_or_alloc (s : VarStore) (name : String)
    (coords : List (List String)) (lo hi : XVal) (int : Bool) :
    (name ∈ s.names ↔ s.declare name coords lo hi int = Except.error Err.DuplicateName) ∧
    (∀ pairs s', s.declare name coords lo hi int = Except.ok (pairs, s') →
      labelsOf pairs = crossProduct coords ∧
      pairs.length = (coords.map List.length).prod ∧
      (pairs.map Prod.snd).Nodup ∧
      (∀ j ∈ pairs.map Prod.snd, s.nextId ≤ j) ∧
      s'.nextId = s.nextId + pairs.length ∧
      s'.names = s.names ++ [name]) := by
  constructor
  · constructor
    · intro hn
      unfold VarStore.declare
      rw [if_pos hn]
    · intro h
      by_cases hn : name ∈ s.names
      · exact hn
      · unfold VarStore.declare at h
        rw [if_neg hn] at h
        cases h
  · intro pairs s' h
    obtain ⟨hn, hp, hs⟩ := declare_ok_parts s name coords lo hi int pairs s' h
    have hlen : pairs.length = (crossProduct coords).length := by
      rw [hp, List.length_zip, List.length_map, List.length_range, Nat.min_self]
    refine ⟨?_, ?_, ?_, ?_, ?_, ?_⟩
    · rw [hp, labelsOf_zip_range]
    · rw [hlen, crossProduct_length]
    · rw [hp, ids_zip_range]
      exact (List.nodup_range _).map (fun a b hab => Nat.add_left_cancel hab)
    · intro j hj
      rw [hp, ids_zip_range] at hj
      rcases List.mem_map.1 hj with ⟨i, _, hij⟩
      rw [← hij]
      exact Nat.le_add_right _ _
    · rw [hs, hlen]
    · rw [hs]

/-- Witness for C9: a duplicate declare fails, a fresh declare over a 2 x 2
coordinate grid allocates four distinct consecutive ids. -/
theorem declare_duplicate_or_alloc_witness :
    (("x" ∈ w9s.names ↔
      w9s.declare "x" [["a"], ["b"]] (XVal.fin 0) XVal.pinf false =
        Except.error Err.DuplicateName) ∧
     (∀ pairs s', w9s.declare "x" [["a"], ["b"]] (XVal.fin 0) XVal.pinf false =
        Except.ok (pairs, s') →
      labelsOf pairs = crossProduct [["a"], ["b"]] ∧
      pairs.length = ([["a"], ["b"]].map List.length).prod ∧
      (pairs.map Prod.snd).Nodup ∧
      (∀ j ∈ pairs.map Prod.snd, w9s.nextId ≤ j) ∧
      s'.nextId = w9s.nextId + pairs.length ∧
      s'.names = w9s.names ++ ["x"])) ∧
    (("y" ∈ w9s.names ↔
      w9s.declare "y" [["a", "b"], ["p", "q"]] (XVal.fin 0) XVal.pinf false =
        Except.error Err.DuplicateName) ∧
     (∀ pairs s', w9s.declare "y" [["a", "b"], ["p", "q"]] (XVal.fin 0) XVal.pinf false =
        Except.ok (pairs, s') →
      labelsOf pairs = crossProduct [["a", "b"], ["p", "q"]] ∧
      pairs.length = ([["a", "b"], ["p", "q"]].map List.length).prod ∧
      (pairs.map Prod.snd).Nodup ∧
      (∀ j ∈ pairs.map Prod.snd, w9s.nextId ≤ j) ∧
      s'.nextId = w9s.nextId + pairs.length ∧
      s'.names = w9s.names ++ ["y"])) :=
  ⟨declare_duplicate_or_alloc w9s "x" [["a"], ["b"]] (XVal.fin 0) XVal.pinf false,
   declare_duplicate_or_alloc w9s "y" [["a", "b"], ["p", "q"]] (XVal.fin 0) XVal.pinf false⟩

theorem find?_var_entries (pairs : LArr VarId) (hnd : (labelsOf pairs).Nodup)
    (name : String) (lo hi : XVal) (int : Bool) (p : Lab × VarId) (hp : p ∈ pairs) :
    (pairs.map (fun q => (q.2, mkVarInfo name lo hi int q.1))).find?
      (fun r => decide (r.2.name = name ∧ r.2.lab = p.1))
      = some (p.2, mkVarInfo name lo hi int p.1) := by
  induction pairs with
  | nil => cases hp
  | cons x rest ih =>
    have hnd' : x.1 ∉ labelsOf rest ∧ (labelsOf rest).Nodup := by
      unfold labelsOf at hnd
      rw [List.map_cons, List.nodup_cons] at hnd
      exact hnd
    rcases List.mem_cons.1 hp with h1 | h2
    · subst h1
      rw [List.map_cons]
      exact List.find?_cons_of_pos _ (by simp [mkVarInfo])
    · have hxp : x.1 ≠ p.1 := by
        intro hc
        apply hnd'.1
        rw [hc]
        exact List.mem_map.2 ⟨p, h2, rfl⟩
      rw [List.map_cons, List.find?_cons_of_neg _ (by simp [mkVarInfo, hxp])]
      exact ih hnd'.2 h2

theorem solve_structural (m : Model) (oracle : List SolveOutcome) :
    (m.solve oracle).2.1.structural = m.structural := by
  unfold Model.solve
  rcases htc : m.translateC with ⟨r, m'⟩
  have hst : m'.structural = m.structural := by
    have := (translateC_snd_frame m).1
    rw [htc] at this
    exact this
  cases r with
  | error e => exact hst
  | ok u =>
    cases oracle with
    | nil => exact hst
    | cons o rest =>
      cases o with
      | sol vals => exact hst
      | infeasibleOrUnbounded => exact hst
      | solverError => exact hst

theorem setVarBound_ok_vstore (m : Model) (sel : List VarId) (k : BKind) (b : BArg)
    (m₂ : Model) (h : m.setVarBound sel k b = Except.ok m₂) :
    m₂.vstore = { m.vstore with vars := m.vstore.vars.map (fun p =>
      if p.1 ∈ sel then (p.1, setBoundOf p.2 k ((bargAt b p.2.lab).getD XVal.ninf))
      else p) } ∧ m₂.cstore = m.cstore := by
  unfold Model.setVarBound at h
  cases hsb : m.vstore.set_bound sel k b with
  | error e => rw [hsb] at h; cases h
  | ok vs =>
    rw [hsb] at h
    injection h with h
    obtain ⟨hvs, _⟩ := set_bound_ok_vars m.vstore sel k b vs hsb
    rw [← h]
    exact ⟨by rw [hvs], rfl⟩

/-- C1: every variable declaration assigns each (name, label) pair a fresh,
pairwise-distinct integer id (never colliding with any id ever allocated,
removed variables included, so removed ids are never reused), establishes the
(name, label) to id binding, keeps prior bindings intact, and that binding is
unchanged by any later bound mutation, variable removal, constraint mutation
or solve call. -/
theorem variable_ids_distinct_and_stable (s : VarStore) (name : String)
    (coords : List (List String)) (lo hi : XVal) (int : Bool)
    (pairs : LArr VarId) (s' : VarStore)
    (hwf : s.WF) (hinv : ∀ q ∈ s.vars, q.2.name ∈ s.names)
    (hcoords : ∀ c ∈ coords, c.Nodup)
    (hd : s.declare name coords lo hi int = Except.ok (pairs, s')) :
    (pairs.map Prod.snd).Nodup ∧
    (∀ j ∈ pairs.map Prod.snd, ∀ p ∈ s.vars, j ≠ p.1) ∧
    (∀ p ∈ pairs, s'.idOf name p.1 = some p.2) ∧
    (∀ nm lb i, s.idOf nm lb = some i → s'.idOf nm lb = some i) ∧
    (∀ (m : Model) (sel : List VarId) (k : BKind) (b : BArg) (m₂ : Model),
      m.setVarBound sel k b = Except.ok m₂ →
      ∀ nm lb, m₂.vstore.idOf nm lb = m.vstore.idOf nm lb) ∧
    (∀ (m : Model) (sel : List VarId) (nm : String) (lb : Lab),
      (m.removeVariables sel).vstore.idOf nm lb = m.vstore.idOf nm lb) ∧
    (∀ (m : Model) (sel : List ConId) (e : LinExpr) (sign : CmpSign) (b : QArg),
      (m.setConLhs sel e).vstore.idOf = m.vstore.idOf ∧
      (m.setConSign sel sign).vstore.idOf = m.vstore.idOf ∧
      (∀ m₂, m.setConRhs sel b = Except.ok m₂ → m₂.vstore.idOf = m.vstore.idOf)) ∧
    (∀ (m : Model) (oracle : List SolveOutcome) (nm : String) (lb : Lab),
      (m.solve oracle).2.1.vstore.idOf nm lb = m.vstore.idOf nm lb) := by
  obtain ⟨hn, hp, hs⟩ := declare_ok_parts s name coords lo hi int pairs s' hd
  have hlabs : labelsOf pairs = crossProduct coords := by
    rw [hp, labelsOf_zip_range]
  have hfresh : ∀ j ∈ pairs.map Prod.snd, s.nextId ≤ j := by
    intro j hj
    rw [hp, ids_zip_range] at hj
    rcases List.mem_map.1 hj with ⟨i, _, hij⟩
    rw [← hij]
    exact Nat.le_add_right _ _
  refine ⟨?_, ?_, ?_, ?_, ?_, ?_, ?_, ?_⟩
  · rw [hp, ids_zip_range]
    exact (List.nodup_range _).map (fun a b hab => Nat.add_left_cancel hab)
  · intro j hj p hpv
    have h1 : s.nextId ≤ j := hfresh j hj
    have h2 : p.1 < s.nextId := hwf p hpv
    intro hc
    rw [hc] at h1
    exact absurd h1 (Nat.not_le.2 h2)
  · intro p hpp
    have hpred : ∀ q ∈ s.vars,
        (fun r : VarId × VarInfo => decide (r.2.name = name ∧ r.2.lab = p.1)) q = false := by
      intro q hq
      have : q.2.name ≠ name := by
        intro hc
        apply hn
        rw [← hc]
        exact hinv q hq
      simp [this]
    unfold VarStore.idOf
    rw [hs]
    simp only
    rw [find?_append_of_none _ _ _ hpred]
    rw [find?_var_entries pairs (by rw [hlabs]; exact crossProduct_nodup coords hcoords)
      name lo hi int p hpp]
    rfl
  · intro nm lb i hi
    unfold VarStore.idOf at hi ⊢
    rw [hs]
    simp only
    cases hfind : s.vars.find? (fun p => decide (p.2.name = nm ∧ p.2.lab = lb)) with
    | none => rw [hfind] at hi; cases hi
    | some q =>
      rw [hfind] at hi
      rw [find?_append_of_found _ _ _ q hfind]
      exact hi
  · intro m sel k b m₂ hmb nm lb
    obtain ⟨hv, _⟩ := setVarBound_ok_vstore m sel k b m₂ hmb
    rw [hv]
    exact varIdOf_map_stable m.vstore nm lb _
      (fun p => by by_cases hps : p.1 ∈ sel <;> simp [hps, setBoundOf_name, setBoundOf_lab])
      (fun p => by by_cases hps : p.1 ∈ sel <;> simp [hps, setBoundOf_name])
      (fun p => by by_cases hps : p.1 ∈ sel <;> simp [hps, setBoundOf_lab])
      m.vstore.nextId m.vstore.names
  · intro m sel nm lb
    unfold Model.removeVariables VarStore.remove
    simp only
    exact varIdOf_map_stable m.vstore nm lb _
      (fun p => by by_cases hps : p.1 ∈ sel <;> simp [hps])
      (fun p => by by_cases hps : p.1 ∈ sel <;> simp [hps])
      (fun p => by by_cases hps : p.1 ∈ sel <;> simp [hps])
      m.vstore.nextId m.vstore.names
  · intro m sel e sign b
    refine ⟨rfl, rfl, fun m₂ hm₂ => ?_⟩
    unfold Model.setConRhs at hm₂
    cases hcr : m.cstore.set_rhs sel b with
    | error er => rw [hcr] at hm₂; cases hm₂
    | ok cst =>
      rw [hcr] at hm₂
      injection hm₂ with hm₂
      rw [← hm₂]
  · intro m oracle nm lb
    have := solve_structural m oracle
    have hv : (m.solve oracle).2.1.vstore = m.vstore := congrArg Structural.vstore this
    rw [hv]

theorem all_congr_mem {α : Type} (l : List α) (f g : α → Bool)
    (h : ∀ x ∈ l, f x = g x) : l.all f = l.all g := by
  induction l with
  | nil => rfl
  | cons x rest ih =>
    rw [List.all_cons, List.all_cons, h x (List.mem_cons_self x rest),
      ih (fun y hy => h y (List.mem_cons_of_mem x hy))]

theorem set_bound_byname_eq (s : VarStore) (name : String) (k : BKind) (b : BArg)
    (hnd : (s.vars.map Prod.fst).Nodup) :
    s.set_bound (s.idsOfName name) k b = s.setBoundByName name k b := by
  have hiff : ∀ p ∈ s.vars, (p.1 ∈ s.idsOfName name ↔ p.2.name = name) := by
    intro p hp
    unfold VarStore.idsOfName
    rw [mem_filter_map_fst_iff s.vars hnd (fun info => decide (info.name = name)) p hp]
    simp
  have hguard : (s.vars.all (fun p =>
        decide (p.1 ∉ s.idsOfName name) || (bargAt b p.2.lab).isSome))
      = (s.vars.all (fun p =>
        !(decide (p.2.name = name)) || (bargAt b p.2.lab).isSome)) := by
    apply all_congr_mem
    intro p hp
    rw [decide_not, decide_eq_decide.2 (hiff p hp)]
  have hmap : (s.vars.map (fun p =>
        if p.1 ∈ s.idsOfName name then
          (p.1, setBoundOf p.2 k ((bargAt b p.2.lab).getD XVal.ninf))
        else p))
      = (s.vars.map (fun p =>
        if p.2.name = name then
          (p.1, setBoundOf p.2 k ((bargAt b p.2.lab).getD XVal.ninf))
        else p)) := by
    apply List.map_congr_left
    intro p hp
    by_cases hname : p.2.name = name
    · rw [if_pos ((hiff p hp).2 hname), if_pos hname]
    · rw [if_neg (fun hc => hname ((hiff p hp).1 hc)), if_neg hname]
  unfold VarStore.set_bound VarStore.setBoundByName
  rw [hguard, hmap]

theorem set_rhs_byname_eq (cs : ConStore) (name : String) (b : QArg)
    (hnd : (cs.cons.map Prod.fst).Nodup) :
    cs.set_rhs (cs.idsOfName name) b = cs.setRhsByName name b := by
  have hiff : ∀ p ∈ cs.cons, (p.1 ∈ cs.idsOfName name ↔ p.2.name = name) := by
    intro p hp
    unfold ConStore.idsOfName
    rw [mem_filter_map_fst_iff cs.cons hnd (fun info => decide (info.name = name)) p hp]
    simp
  have hguard : (cs.cons.all (fun p =>
        decide (p.1 ∉ cs.idsOfName name) || (qargAt b p.2.lab).isSome))
      = (cs.cons.all (fun p =>
        !(decide (p.2.name = name)) || (qargAt b p.2.lab).isSome)) := by
    apply all_congr_mem
    intro p hp
    rw [decide_not, decide_eq_decide.2 (hiff p hp)]
  have hmap : (cs.cons.map (fun p =>
        if p.1 ∈ cs.idsOfName name then (p.1, { p.2 with rhs := (qargAt b p.2.lab).getD 0 })
        else p))
      = (cs.cons.map (fun p =>
        if p.2.name = name then (p.1, { p.2 with rhs := (qargAt b p.2.lab).getD 0 })
        else p)) := by
    apply List.map_congr_left
    intro p hp
    by_cases hname : p.2.name = name
    · rw [if_pos ((hiff p hp).2 hname), if_pos hname]
    · rw [if_neg (fun hc => hname ((hiff p hp).1 hc)), if_neg hname]
  unfold ConStore.set_rhs ConStore.setRhsByName
  rw [hguard, hmap]

/-- C10: mutating a bound through the standalone handle returned at
declaration and mutating it through the model's store lookup are equivalent
(same result, both on success and on failure), likewise for a constraint's
right-hand side; consequently every subsequent observation of the model
(translation and solving included) is identical whichever path was used. -/
theorem handle_vs_store_paths (m : Model) (name cname : String) (b : BArg) (bq : QArg)
    (hvnd : (m.vstore.vars.map Prod.fst).Nodup)
    (hcnd : (m.cstore.cons.map Prod.fst).Nodup) :
    m.setLowerViaHandle name b = m.setLowerViaStore name b ∧
    m.setConRhsViaHandle cname bq = m.setConRhsViaStore cname bq ∧
    (∀ m₁ m₂, m.setLowerViaHandle name b = Except.ok m₁ →
      m.setLowerViaStore name b = Except.ok m₂ →
      m₁ = m₂ ∧ m₁.translateC = m₂.translateC ∧
        ∀ oracle, m₁.solve oracle = m₂.solve oracle) ∧
    (∀ m₁ m₂, m.setConRhsViaHandle cname bq = Except.ok m₁ →
      m.setConRhsViaStore cname bq = Except.ok m₂ →
      m₁ = m₂ ∧ m₁.translateC = m₂.translateC ∧
        ∀ oracle, m₁.solve oracle = m₂.solve oracle) := by
  have h1 : m.setLowerViaHandle name b = m.setLowerViaStore name b := by
    unfold Model.setLowerViaHandle Model.setLowerViaStore
    rw [set_bound_byname_eq m.vstore name BKind.lower b hvnd]
  have h2 : m.setConRhsViaHandle cname bq = m.setConRhsViaStore cname bq := by
    unfold Model.setConRhsViaHandle Model.setConRhsViaStore
    rw [set_rhs_byname_eq m.cstore cname bq hcnd]
  refine ⟨h1, h2, ?_, ?_⟩
  · intro m₁ m₂ ha hb
    rw [h1, hb] at ha
    injection ha with ha
    exact ⟨ha.symm, by rw [ha], fun oracle => by rw [ha]⟩
  · intro m₁ m₂ ha hb
    rw [h2, hb] at ha
    injection ha with ha
    exact ⟨ha.symm, by rw [ha], fun oracle => by rw [ha]⟩

theorem handle_vs_store_paths_witness :
    ((mWit.vstore.vars.map Prod.fst).Nodup ∧ (mWit.cstore.cons.map Prod.fst).Nodup) ∧
    (mWit.setLowerViaHandle "x" (BArg.scalar (XVal.fin 1)) =
        mWit.setLowerViaStore "x" (BArg.scalar (XVal.fin 1)) ∧
      mWit.setConRhsViaHandle "con1" (QArg.scalar 8) =
        mWit.setConRhsViaStore "con1" (QArg.scalar 8) ∧
      (∀ m₁ m₂, mWit.setLowerViaHandle "x" (BArg.scalar (XVal.fin 1)) = Except.ok m₁ →
        mWit.setLowerViaStore "x" (BArg.scalar (XVal.fin 1)) = Except.ok m₂ →
        m₁ = m₂ ∧ m₁.translateC = m₂.translateC ∧
          ∀ oracle, m₁.solve oracle = m₂.solve oracle) ∧
      (∀ m₁ m₂, mWit.setConRhsViaHandle "con1" (QArg.scalar 8) = Except.ok m₁ →
        mWit.setConRhsViaStore "con1" (QArg.scalar 8) = Except.ok m₂ →
        m₁ = m₂ ∧ m₁.translateC = m₂.translateC ∧
          ∀ oracle, m₁.solve oracle = m₂.solve oracle)) :=
  ⟨⟨by decide, by decide⟩,
   handle_vs_store_paths mWit "x" "con1" (BArg.scalar (XVal.fin 1)) (QArg.scalar 8)
     (by decide) (by decide)⟩

/-- Witness for C1 at a concrete store and declare call. -/
theorem variable_ids_distinct_and_stable_witness :
    (w9s.WF ∧ (∀ q ∈ w9s.vars, q.2.name ∈ w9s.names) ∧
      (∀ c ∈ [["a", "b"]], c.Nodup) ∧
      w9s.declare "z" [["a", "b"]] (XVal.fin 1) XVal.pinf false =
        Except.ok (w1pairs, w1s')) ∧
    ((w1pairs.map Prod.snd).Nodup ∧
      (∀ j ∈ w1pairs.map Prod.snd, ∀ p ∈ w9s.vars, j ≠ p.1) ∧
      (∀ p ∈ w1pairs, w1s'.idOf "z" p.1 = some p.2) ∧
      (∀ nm lb i, w9s.idOf nm lb = some i → w1s'.idOf nm lb = some i) ∧
      (∀ (m : Model) (sel : List VarId) (k : BKind) (b : BArg) (m₂ : Model),
        m.setVarBound sel k b = Except.ok m₂ →
        ∀ nm lb, m₂.vstore.idOf nm lb = m.vstore.idOf nm lb) ∧
      (∀ (m : Model) (sel : List VarId) (nm : String) (lb : Lab),
        (m.removeVariables sel).vstore.idOf nm lb = m.vstore.idOf nm lb) ∧
      (∀ (m : Model) (sel : List ConId) (e : LinExpr) (sign : CmpSign) (b : QArg),
        (m.setConLhs sel e).vstore.idOf = m.vstore.idOf ∧
        (m.setConSign sel sign).vstore.idOf = m.vstore.idOf ∧
        (∀ m₂, m.setConRhs sel b = Except.ok m₂ → m₂.vstore.idOf = m.vstore.idOf)) ∧
      (∀ (m : Model) (oracle : List SolveOutcome) (nm : String) (lb : Lab),
        (m.solve oracle).2.1.vstore.idOf nm lb = m.vstore.idOf nm lb)) :=
  ⟨⟨by decide, by decide, by decide, by decide⟩,
   variable_ids_distinct_and_stable w9s "z" [["a", "b"]] (XVal.fin 1) XVal.pinf false
     w1pairs w1s' (by decide) (by decide) (by decide) (by decide)⟩

/-- Witness for C4 at a concrete store: setting the lower bound of id 0 only
leaves id 1 untouched. -/
theorem set_bound_frame_witness :
    ((w9s.vars.map Prod.fst).Nodup ∧
      w9s.set_bound [0] BKind.lower (BArg.scalar (XVal.fin 1)) = Except.ok w4t) ∧
    ((∀ i, i ∉ ([0] : List VarId) → w4t.infoOf i = w9s.infoOf i) ∧
      (∀ p ∈ w9s.vars, p.1 ∈ ([0] : List VarId) →
        ∃ v, bargAt (BArg.scalar (XVal.fin 1)) p.2.lab = some v ∧
          w4t.infoOf p.1 = some (setBoundOf p.2 BKind.lower v))) :=
  ⟨⟨by decide, by decide⟩,
   set_bound_frame w9s [0] BKind.lower (BArg.scalar (XVal.fin 1)) w4t
     (by decide) (by decide)⟩

end Linopy
